import Mathlib

/-!
Verification of the straggler-catcher pintool
(src/pintools/straggler-catcher.cpp) against its natural-language
specification.  The definitions below are a shallow embedding of the
relevant C++ routines: unsigned 64-bit arithmetic is modelled as Nat with
explicit reduction modulo 2^64 where overflow matters, fixed C arrays are
modelled as lists with explicit bounds checks, and out-of-bounds reads are
modelled by an explicit junk parameter.
-/

/-- Modulus of unsigned 64-bit (UINT64) arithmetic. -/
def UINT64_MOD : Nat := 2 ^ 64

/-- Unsigned 64-bit subtraction with wrap-around, as computed by
`timeNow - timeAtLastEntry` on UINT64 operands in the source. -/
def sub64 (a b : Nat) : Nat := (a + (UINT64_MOD - b % UINT64_MOD)) % UINT64_MOD

/-- STACK_LIMIT from straggler-catcher.cpp line 113: the byte capacity of the
per-thread stackTrace buffer. -/
def STACK_LIMIT : Nat := 8192

def BILLION : Nat := 1000000000

def MILLION : Nat := 1000000

def THOUSAND : Nat := 1000

/-- The single-quote character used by writeStackRecord when formatting a
trace token (written via Char.ofNat to keep the embedding plain). -/
def qChar : Char := Char.ofNat 39

/-- The NUL byte: both the memset fill of freshly allocated thread slots and
the terminator written by snprintf. -/
def nulChar : Char := Char.ofNat 0

/-- ThrLocData from straggler-catcher.cpp lines 115-123.  The char array
stackTrace is modelled as a list of characters (its length is kept at
STACK_LIMIT by every operation of the tool); the padding field carries no
information and is omitted. -/
structure ThrLocData where
  timeAtLastEntry : Nat
  invCount : Nat
  valid : Bool
  stackTrace : List Char
  stackBufPosition : Nat
deriving DecidableEq

/-- A zero-initialized thread slot, as produced by the memset in the Image
routine (line 616) and in allocMoreSpaceAndCopy (line 206). -/
def freshSlot : ThrLocData :=
  ⟨0, 0, false, List.replicate STACK_LIMIT nulChar, 0⟩

/-- callBefore (lines 374-382): on entry to a monitored call site the owning
thread stores the current monotonic clock reading (a UINT64 value, passed
here as the parameter now) and resets the trace cursor to zero. -/
def callBefore (now : Nat) (tld : ThrLocData) : ThrLocData :=
  { tld with timeAtLastEntry := now, stackBufPosition := 0 }

/-- callAfter (lines 384-394): on exit the owning thread increments the
UINT64 invocation counter and clears the entry timestamp.  The embedded
catchStraggler call does not modify the slot, so it does not appear in the
state transition; its report decision is modelled separately. -/
def callAfter (tld : ThrLocData) : ThrLocData :=
  { tld with invCount := (tld.invCount + 1) % UINT64_MOD, timeAtLastEntry := 0 }

/-- A sequence of completed onEnter/onExit pairs on one thread for one call
site, with clocks the list of monotonic clock readings observed at the
successive entries. -/
def runPairs (clocks : List Nat) (tld : ThrLocData) : ThrLocData :=
  clocks.foldl (fun t c => callAfter (callBefore c t)) tld

/-- catchStraggler (lines 318-372), the slot-check primitive, with the
slot read sequentially: returns whether a straggler report is emitted for
the given slot timestamp, clock reading and threshold.  The source returns
FALSE when the timestamp reads 0, discards the check when the wrapped
elapsed time equals the clock reading (race sentinel), and reports exactly
when the elapsed time exceeds the latency threshold. -/
def catchStraggler (tld : ThrLocData) (timeNow latencyThreshold : Nat) : Bool :=
  if tld.timeAtLastEntry = 0 then
    false
  else
    if sub64 timeNow tld.timeAtLastEntry = timeNow then
      false
    else
      decide (latencyThreshold < sub64 timeNow tld.timeAtLastEntry)

/-- Outcome of one stragglerCaught invocation (lines 283-308): whether the
external handler was invoked, whether the invocation-failure message was
printed, and whether the process was terminated by exit(-1).  The malloc of
the command buffer is assumed to succeed (its failure path also exits). -/
structure ReportOutcome where
  invokedHandler : Bool
  loggedInvokeError : Bool
  exitedProcess : Bool
deriving DecidableEq

/-- stragglerCaught (lines 283-308): if a script was provided, the user
script is invoked through system(); a nonzero return status is logged
("Couldn't invoke user-defined script...") and the process exits with -1. -/
def stragglerCaught (scriptProvided : Bool) (systemRet : Int) : ReportOutcome :=
  if scriptProvided then
    if systemRet ≠ 0 then ⟨true, true, true⟩
    else ⟨true, false, false⟩
  else ⟨false, false, false⟩

/-- Models the contiguous byte write performed by snprintf into the fixed
8192-byte stackTrace array: writes cs starting at offset i, or none when any
written byte would land at or beyond index STACK_LIMIT (an out-of-bounds
write, which the source never performs). -/
def writeBytes (buf : List Char) (i : Nat) (cs : List Char) : Option (List Char) :=
  if i + cs.length ≤ STACK_LIMIT then
    some (buf.take i ++ cs ++ buf.drop (i + cs.length))
  else none

/-- The characters actually deposited in the buffer for one trace record:
snprintf(buf+pos, len+6, "'%s%s' ") truncates its output to len+5
characters, namely a quote, the routine name, the suffix and a closing
quote, followed by a terminating NUL. -/
def stackToken (rtnName suffix : String) : List Char :=
  qChar :: (rtnName.data ++ suffix.data ++ [qChar])

/-- writeStackRecord (lines 397-419).  Returns the updated slot and whether
the overflow warning was printed on this call; none would indicate an
out-of-bounds buffer write.  On overflow (cursor + record length exceeding
STACK_LIMIT) the record is dropped, the warning is printed and the slot is
untouched; otherwise the token plus NUL is written at the cursor and the
cursor advances by the record length minus one so that the next record
overwrites the NUL. -/
def writeStackRecord (tld : ThrLocData) (rtnName suffix : String) :
    Option (ThrLocData × Bool) :=
  if STACK_LIMIT < tld.stackBufPosition + (rtnName.length + suffix.length + 3) then
    some (tld, true)
  else
    match writeBytes tld.stackTrace tld.stackBufPosition
        (stackToken rtnName suffix ++ [nulChar]) with
    | none => none
    | some buf =>
      some ({ tld with
                stackTrace := buf,
                stackBufPosition :=
                  tld.stackBufPosition + (rtnName.length + suffix.length + 3) - 1 },
            false)

/-- stackTraceBefore (lines 438-455) restricted to one tracked call site
record: if the calling thread is inside the monitored call (nonzero entry
timestamp), append the enter token for the nested routine. -/
def stackTraceBefore (tld : ThrLocData) (rtnName : String) : Option ThrLocData :=
  if 0 < tld.timeAtLastEntry then
    (writeStackRecord tld rtnName "-->").map Prod.fst
  else some tld

/-- stackTraceAfter (lines 457-474) restricted to one tracked call site
record: the exit counterpart of stackTraceBefore. -/
def stackTraceAfter (tld : ThrLocData) (rtnName : String) : Option ThrLocData :=
  if 0 < tld.timeAtLastEntry then
    (writeStackRecord tld rtnName "<--").map Prod.fst
  else some tld

/-- An entry or exit of a nested routine observed by the stack-tracing
instrumentation while a monitored call is outstanding. -/
inductive NestedEvent where
  | enter (rtnName : String)
  | exit (rtnName : String)
deriving DecidableEq

def nestedName : NestedEvent → String
  | .enter n => n
  | .exit n => n

/-- The token a nested event contributes to the trace buffer. -/
def eventToken : NestedEvent → List Char
  | .enter n => stackToken n "-->"
  | .exit n => stackToken n "<--"

def applyNested (tld : ThrLocData) : NestedEvent → Option ThrLocData
  | .enter n => stackTraceBefore tld n
  | .exit n => stackTraceAfter tld n

/-- Runs a sequence of nested-routine events through the stack-tracing
instrumentation of a single call site slot. -/
def runNested : ThrLocData → List NestedEvent → Option ThrLocData
  | tld, [] => some tld
  | tld, e :: es =>
    match applyNested tld e with
    | none => none
    | some t => runNested t es

/-- Runs a sequence of raw writeStackRecord appends and counts how many
times the overflow warning was printed. -/
def runAppends : ThrLocData → List (String × String) → Option (ThrLocData × Nat)
  | tld, [] => some (tld, 0)
  | tld, (n, s) :: rs =>
    match writeStackRecord tld n s with
    | none => none
    | some (t, warned) =>
      match runAppends t rs with
      | none => none
      | some (t2, c) => some (t2, (if warned then 1 else 0) + c)

/-- The trace string as consumed by the report sink: the stackTrace array is
passed to the user script as a C string, read up to the first NUL byte. -/
def takeUntilNull : List Char → List Char
  | [] => []
  | c :: cs => if c = nulChar then [] else c :: takeUntilNull cs

def traceOut (tld : ThrLocData) : List Char := takeUntilNull tld.stackTrace

/-- The shape of a slot trace buffer after a run of successful appends:
cursor at the end of the written tokens, then the snprintf NUL terminator,
then the untouched zero fill of the allocation. -/
def wellFormedTrace (tld : ThrLocData) (done : List Char) : Prop :=
  tld.stackBufPosition = done.length ∧
  tld.stackTrace =
    done ++ nulChar :: List.replicate (STACK_LIMIT - done.length - 1) nulChar

/-- Word splitting performed by the istringstream extraction loop in
buildFuncList (lines 754-763): the line is cut at whitespace and empty
words are discarded. -/
def wordsAux : List Char → List Char → List String
  | [], [] => []
  | [], cur => [String.mk cur.reverse]
  | c :: cs, cur =>
    if c.isWhitespace then
      match cur with
      | [] => wordsAux cs []
      | _ => String.mk cur.reverse :: wordsAux cs []
    else wordsAux cs (c :: cur)

def splitWords (line : String) : List String := wordsAux line.data []

/-- Value of a digit string, most significant digit first. -/
def digitsVal (cs : List Char) : Nat :=
  cs.foldl (fun a c => a * 10 + (c.toNat - 48)) 0

/-- Magnitude part of the libc atof used at line 689, represented exactly
as a scaled decimal integer: the pair (n, k) stands for the double value
n / 10^k.  Leading decimal digits, then an optional fractional part after a
dot; exponent notation is not modelled (the configuration grammar never
uses it).  A string with no leading digits has magnitude 0, exactly as
atof returns 0.0 for it. -/
def atofMagnitude (cs : List Char) : Int × Nat :=
  match cs.dropWhile Char.isDigit with
  | c :: r =>
    if c = '.' then
      ((digitsVal (cs.takeWhile Char.isDigit) : Int) *
          (10 : Int) ^ (r.takeWhile Char.isDigit).length +
        (digitsVal (r.takeWhile Char.isDigit) : Int),
       (r.takeWhile Char.isDigit).length)
    else ((digitsVal (cs.takeWhile Char.isDigit) : Int), 0)
  | [] => ((digitsVal (cs.takeWhile Char.isDigit) : Int), 0)

/-- Modelled from libc: atof(s) for decimal literals, with optional leading
whitespace and sign, as the exact scaled decimal (n, k) whose value is
n / 10^k.  The configuration values in scope are integers and short
decimals, which doubles represent exactly. -/
def atofParsed (s : String) : Int × Nat :=
  match s.data.dropWhile Char.isWhitespace with
  | c :: r =>
    if c = '-' then (- (atofMagnitude r).1, (atofMagnitude r).2)
    else if c = '+' then atofMagnitude r
    else atofMagnitude (c :: r)
  | [] => (0, 0)

/-- The C cast (UINT64)(threshold * multiplier) at line 713 applied to the
exact value n * mult / 10^k, as produced by the x86-64 build: truncation
toward zero followed by a two's-complement wrap into [0, 2^64). -/
def doubleToU64 (n : Int) (k : Nat) (mult : Nat) : Nat :=
  (Int.emod (Int.tdiv (n * (mult : Int)) ((10 : Int) ^ k)) (UINT64_MOD : Int)).toNat

/-- FuncName (lines 95-100) without the intrusive next pointer: the parsed
name and the threshold converted to nanoseconds. -/
structure FuncName where
  name : String
  threshold : Nat
deriving DecidableEq

/-- getFN (lines 679-716): called on a three-word line; rejects a threshold
that atof parses as zero, then dispatches on the unit suffix, rejecting
anything outside s, ms, us, ns. -/
def getFN (elems : List String) : Option FuncName :=
  match elems with
  | [nm, t, u] =>
    if (atofParsed t).1 = 0 then none
    else if u = "s" then
      some ⟨nm, doubleToU64 (atofParsed t).1 (atofParsed t).2 BILLION⟩
    else if u = "ms" then
      some ⟨nm, doubleToU64 (atofParsed t).1 (atofParsed t).2 MILLION⟩
    else if u = "us" then
      some ⟨nm, doubleToU64 (atofParsed t).1 (atofParsed t).2 THOUSAND⟩
    else if u = "ns" then
      some ⟨nm, doubleToU64 (atofParsed t).1 (atofParsed t).2 1⟩
    else none
  | _ => none

/-- buildFuncList (lines 730-786) over the list of input lines, threading
the funcNameList accumulator (the source prepends each new record): a
three-word line must parse via getFN, an empty line is skipped, and any
other word count hits SHOW_ERROR_AND_RETURN; none models the -1 error
return. -/
def buildFuncListAux : List String → List FuncName → Option (List FuncName)
  | [], acc => some acc
  | l :: ls, acc =>
    if (splitWords l).length = 3 then
      match getFN (splitWords l) with
      | none => none
      | some fn => buildFuncListAux ls (fn :: acc)
    else if (splitWords l).length = 0 then buildFuncListAux ls acc
    else none

def buildFuncList (lines : List String) : Option (List FuncName) :=
  buildFuncListAux lines []

/-- main (lines 830-832): the tool proceeds past startup (and eventually
calls PIN_StartProgram) only when buildFuncList returns success; otherwise
it prints Usage and returns. -/
def mainStartsMonitoring (lines : List String) : Bool :=
  (buildFuncList lines).isSome

/-- A configuration line of one of the three fatal classes of the error
taxonomy: malformed (word count neither 0 nor 3), unknown time unit, or a
threshold value that atof parses as zero. -/
def configFatal (l : String) : Prop :=
  ((splitWords l).length ≠ 0 ∧ (splitWords l).length ≠ 3) ∨
  (∃ nm t u, splitWords l = [nm, t, u] ∧
    ((atofParsed t).1 = 0 ∨ (u ≠ "s" ∧ u ≠ "ms" ∧ u ≠ "us" ∧ u ≠ "ns")))

/-- The global state touched by the slot-table growth path: the mutable
global threadArraySize and, for every registered call site (the funcMap
iteration order), its thrFuncRecords array. -/
structure StragglerGlobals where
  threadArraySize : Nat
  records : List (List ThrLocData)

/-- A read of slot i of an array of slots: in bounds it yields the stored
slot, out of bounds it yields whatever bytes happen to follow the
allocation, supplied by the junk parameter (the C memcpy just reads the
address). -/
def readSlotOrJunk (old : List ThrLocData) (junk : Nat → ThrLocData) (i : Nat) :
    ThrLocData :=
  (old.get? i).getD (junk i)

/-- The array produced for one call site by allocMoreSpaceAndCopy: malloc of
newsize slots, memset to zero, then memcpy of count slots from the old
array (count slots are read from the old allocation whether or not it has
that many). -/
def copiedArray (old : List ThrLocData) (junk : Nat → ThrLocData)
    (count newsize : Nat) : List ThrLocData :=
  (List.range newsize).map
    (fun i => if i < count then readSlotOrJunk old junk i else freshSlot)

/-- allocMoreSpaceAndCopy (lines 192-215): newsize is twice the current
threadArraySize; the loop over funcMap copies each array, but the source
assigns threadArraySize = newsize inside the loop body, so the memcpy count
for every call site after the first is already newsize.  malloc is assumed
to succeed (its failure path aborts the process). -/
def allocMoreSpaceAndCopy (junk : Nat → ThrLocData) (g : StragglerGlobals) :
    StragglerGlobals :=
  let newsize := g.threadArraySize * 2
  let res := g.records.foldl
    (fun (acc : Nat × List (List ThrLocData)) old =>
      (newsize, acc.2 ++ [copiedArray old junk acc.1 newsize]))
    (g.threadArraySize, [])
  ⟨res.1, res.2⟩

/-- Sets the valid flag of slot threadid in one call site array (line 242). -/
def setValid (arr : List ThrLocData) (threadid : Nat) : List ThrLocData :=
  match arr.get? threadid with
  | some s => arr.set threadid { s with valid := true }
  | none => arr

/-- markThreadRecValid (lines 224-244): grows the per-thread arrays when the
number of observed thread ids exceeds the current capacity, then marks the
slot of the given thread valid in every call site array. -/
def markThreadRecValid (junk : Nat → ThrLocData)
    (largestUnusedThreadID threadid : Nat) (g : StragglerGlobals) :
    StragglerGlobals :=
  let g1 := if g.threadArraySize < largestUnusedThreadID
            then allocMoreSpaceAndCopy junk g else g
  { g1 with records := g1.records.map (fun arr => setValid arr threadid) }

/-- A nonzero slot standing for the indeterminate bytes that follow the old
allocation in the heap. -/
def junkSlot : ThrLocData := { freshSlot with invCount := 7 }

/-- Concrete growth scenario: two registered call sites, capacity 32, when
thread id 32 (the 33rd thread) starts. -/
def growthG : StragglerGlobals :=
  ⟨32, [List.replicate 32 freshSlot, List.replicate 32 freshSlot]⟩

def growthResult : StragglerGlobals :=
  markThreadRecValid (fun _ => junkSlot) 33 32 growthG


/-- A routine name whose trace record needs 8193 bytes, one more than
STACK_LIMIT, so the very first append to an empty buffer is dropped. -/
def hugeName : String := String.mk (List.replicate 8187 'a')

/-- A small nested-call schedule used to exercise the trace recorder: x is
entered, then b is entered and exited inside it, then x exits. -/
def wEvents : List NestedEvent :=
  [NestedEvent.enter "x", NestedEvent.enter "b",
   NestedEvent.exit "b", NestedEvent.exit "x"]


theorem data_length (s : String) : s.data.length = s.length := rfl

theorem take_len_append {α : Type} (l₁ l₂ : List α) :
    (l₁ ++ l₂).take l₁.length = l₁ := by
  induction l₁ with
  | nil => simp
  | cons a t ih => simp [ih]

theorem drop_len_append {α : Type} (l₁ l₂ : List α) (m : Nat) :
    (l₁ ++ l₂).drop (l₁.length + m) = l₂.drop m := by
  induction l₁ with
  | nil => simp
  | cons a t ih => simp [Nat.succ_add, ih]

theorem drop_repl {α : Type} (a : α) (k m : Nat) :
    (List.replicate k a).drop m = List.replicate (k - m) a := by
  induction k generalizing m with
  | zero => simp
  | succ k ih =>
    cases m with
    | zero => simp
    | succ m => simp [List.replicate_succ, ih m]

/-- Claim C5: catchStraggler emits a report exactly when the entry
timestamp is nonzero, the wrapped elapsed time differs from the clock
reading (the race sentinel), and the elapsed time exceeds the call site
threshold; in each of the three excluded situations no report is emitted. -/
theorem catchStraggler_report_iff (tld : ThrLocData) (timeNow latencyThreshold : Nat) :
    catchStraggler tld timeNow latencyThreshold = true ↔
      (tld.timeAtLastEntry ≠ 0 ∧
       sub64 timeNow tld.timeAtLastEntry ≠ timeNow ∧
       latencyThreshold < sub64 timeNow tld.timeAtLastEntry) := by
  by_cases h1 : tld.timeAtLastEntry = 0 <;>
    by_cases h2 : sub64 timeNow tld.timeAtLastEntry = timeNow <;>
      simp [catchStraggler, h1, h2]

/-- Claim C1 counterexample: when the user script returns a nonzero status
the process is terminated by exit(-1), so the monitored process is not kept
alive across a failed report. -/
theorem stragglerCaught_exits_cex :
    (stragglerCaught true 1).loggedInvokeError = true ∧
    (stragglerCaught true 1).exitedProcess = true := by
  decide

/-- Claim C1 (amended): when the external handler invocation returns an
error, the error is logged and the process exits with status -1; the scan
does not continue past a failed report. -/
theorem stragglerCaught_error_exits (ret : Int) (h : ret ≠ 0) :
    stragglerCaught true ret = ⟨true, true, true⟩ := by
  simp [stragglerCaught, h]

theorem stragglerCaught_error_exits_witness :
    (1 : Int) ≠ 0 ∧ stragglerCaught true 1 = ⟨true, true, true⟩ :=
  ⟨by decide, stragglerCaught_error_exits 1 (by decide)⟩

theorem runPairs_invCount (clocks : List Nat) (tld : ThrLocData)
    (h : tld.invCount < UINT64_MOD) :
    (runPairs clocks tld).invCount = (tld.invCount + clocks.length) % UINT64_MOD := by
  induction clocks generalizing tld with
  | nil => simp [runPairs, Nat.mod_eq_of_lt h]
  | cons c cs ih =>
    have hM : 0 < UINT64_MOD := by decide
    have hstep : (callAfter (callBefore c tld)).invCount = (tld.invCount + 1) % UINT64_MOD := rfl
    have h1 : (callAfter (callBefore c tld)).invCount < UINT64_MOD := by
      rw [hstep]; exact Nat.mod_lt _ hM
    have := ih (callAfter (callBefore c tld)) h1
    rw [runPairs] at this ⊢
    simp only [List.foldl_cons]
    rw [this, hstep, Nat.mod_add_mod]
    simp only [List.length_cons]
    congr 1
    omega

theorem runPairs_ts_zero (clocks : List Nat) (tld : ThrLocData)
    (h : tld.timeAtLastEntry = 0) :
    (runPairs clocks tld).timeAtLastEntry = 0 := by
  induction clocks generalizing tld with
  | nil => simpa [runPairs] using h
  | cons c cs ih =>
    show (runPairs cs (callAfter (callBefore c tld))).timeAtLastEntry = 0
    exact ih _ rfl

/-- Claim C4: for n completed onEnter/onExit pairs on one thread and one
call site, executed sequentially, the invocation count afterward is n and
the entry timestamp is zero after every completed pair prefix. -/
theorem runPairs_invCount_and_reset (clocks : List Nat)
    (h : clocks.length < UINT64_MOD) :
    (runPairs clocks freshSlot).invCount = clocks.length ∧
    ∀ k, (runPairs (clocks.take k) freshSlot).timeAtLastEntry = 0 := by
  constructor
  · have := runPairs_invCount clocks freshSlot (by decide)
    rw [this]
    show (0 + clocks.length) % UINT64_MOD = clocks.length
    rw [Nat.zero_add]
    exact Nat.mod_eq_of_lt h
  · intro k
    exact runPairs_ts_zero (clocks.take k) freshSlot rfl

theorem runPairs_invCount_and_reset_witness :
    (List.length [3, 4] < UINT64_MOD) ∧
    ((runPairs [3, 4] freshSlot).invCount = List.length [3, 4] ∧
     ∀ k, (runPairs (List.take k [3, 4]) freshSlot).timeAtLastEntry = 0) :=
  ⟨by decide, runPairs_invCount_and_reset [3, 4] (by decide)⟩

/-- Claim C10: a negative threshold such as "my_func -5 ms" passes
configuration parsing without any error, and the stored UINT64 threshold is
the two's-complement wrap of the negative nanosecond product, an enormous
value above 2^63. -/
theorem negative_threshold_wraps :
    buildFuncList ["my_func -5 ms"] =
      some [⟨"my_func", UINT64_MOD - 5000000⟩] ∧
    2 ^ 63 < UINT64_MOD - 5000000 := by
  exact ⟨by decide, by decide⟩

/-- Claim C3: the configuration file documented by the parser comment in
buildFuncList (a valid call site line followed by a star-prefixed nested
call line) is rejected: the two-word line hits SHOW_ERROR_AND_RETURN and
parsing returns the -1 error, contradicting both the claim and the code
comment at lines 744-751. -/
theorem buildFuncList_rejects_nested_line :
    buildFuncList ["my_func 3 s", "* inner"] = none := by
  decide

/-- Claim C2 evaluation at the failing input: two registered call sites,
capacity 32, growth triggered by the 33rd thread (id 32).  The capacity
doubles to 64 and the first call site gets a zero-initialized new slot, but
because the source assigns threadArraySize inside the copy loop, the second
call site's memcpy count is already 64: it reads past the end of the old
32-slot allocation and the new slot 32 receives the junk bytes (invCount 7
here) instead of zeros. -/
theorem allocMoreSpace_second_record_not_zeroed :
    growthResult.threadArraySize = 64 ∧
    ((growthResult.records.get? 0).bind (fun a => a.get? 32)).map
        ThrLocData.invCount = some 0 ∧
    ((growthResult.records.get? 1).bind (fun a => a.get? 32)).map
        ThrLocData.invCount = some 7 := by
  refine ⟨rfl, rfl, rfl⟩

/-- Claim C6 counterexample: two oversized appends are both dropped and the
overflow warning is printed both times, so the warning is not logged at
most once per process. -/
theorem writeStackRecord_warns_every_drop_cex :
    (runAppends { freshSlot with stackBufPosition := 8190 }
        [("f", "-->"), ("f", "-->")]).map Prod.snd = some 2 := by
  rfl

theorem writeStackRecord_drop (tld : ThrLocData) (rtnName suffix : String)
    (h : STACK_LIMIT < tld.stackBufPosition + (rtnName.length + suffix.length + 3)) :
    writeStackRecord tld rtnName suffix = some (tld, true) := by
  simp [writeStackRecord, h]

/-- Claim C6 (amended): when an append would exceed the fixed buffer
capacity the token is dropped, the warning is printed on that call (every
such call, not only the first), the slot including its buffer and cursor is
unchanged, and the call returns normally. -/
theorem writeStackRecord_drop_behavior (tld : ThrLocData) (rtnName suffix : String)
    (h : STACK_LIMIT < tld.stackBufPosition + (rtnName.length + suffix.length + 3)) :
    writeStackRecord tld rtnName suffix = some (tld, true) :=
  writeStackRecord_drop tld rtnName suffix h

theorem writeStackRecord_drop_behavior_witness :
    STACK_LIMIT <
      ({ freshSlot with stackBufPosition := 8190 } : ThrLocData).stackBufPosition +
        ("f".length + "-->".length + 3) ∧
    writeStackRecord { freshSlot with stackBufPosition := 8190 } "f" "-->" =
      some ({ freshSlot with stackBufPosition := 8190 }, true) :=
  ⟨by decide, writeStackRecord_drop_behavior _ "f" "-->" (by decide)⟩

theorem stackToken_length (a b : String) :
    (stackToken a b).length = a.length + b.length + 2 := by
  simp only [stackToken, List.length_cons, List.length_append,
    List.length_singleton, List.length_nil, data_length]

/-- Claim C9: writeStackRecord preserves the in-bounds invariant: starting
from any slot whose cursor is inside [0, STACK_LIMIT) and whose buffer has
the allocated STACK_LIMIT bytes, the call never writes a byte at or beyond
index STACK_LIMIT (the result is some, never the out-of-bounds marker), the
cursor stays inside [0, STACK_LIMIT), and the buffer length is unchanged. -/
theorem writeStackRecord_in_bounds (tld : ThrLocData) (rtnName suffix : String)
    (hlen : tld.stackTrace.length = STACK_LIMIT)
    (hpos : tld.stackBufPosition < STACK_LIMIT) :
    ∃ r, writeStackRecord tld rtnName suffix = some r ∧
      r.1.stackBufPosition < STACK_LIMIT ∧
      r.1.stackTrace.length = STACK_LIMIT := by
  by_cases hov : STACK_LIMIT < tld.stackBufPosition + (rtnName.length + suffix.length + 3)
  · refine ⟨(tld, true), ?_, hpos, hlen⟩
    simp [writeStackRecord, hov]
  · have hcs : (stackToken rtnName suffix ++ [nulChar]).length =
        rtnName.length + suffix.length + 3 := by
      simp only [List.length_append, List.length_singleton, stackToken_length]
    have hwb : tld.stackBufPosition + (stackToken rtnName suffix ++ [nulChar]).length
        ≤ STACK_LIMIT := by
      rw [hcs]; omega
    rw [writeStackRecord, if_neg hov, writeBytes, if_pos hwb]
    refine ⟨_, rfl, ?_, ?_⟩
    · show tld.stackBufPosition + (rtnName.length + suffix.length + 3) - 1 < STACK_LIMIT
      omega
    · show (tld.stackTrace.take tld.stackBufPosition ++
          (stackToken rtnName suffix ++ [nulChar]) ++
          tld.stackTrace.drop (tld.stackBufPosition +
            (stackToken rtnName suffix ++ [nulChar]).length)).length = STACK_LIMIT
      simp only [List.length_append, List.length_take, List.length_drop, hcs, hlen]
      omega

theorem writeStackRecord_in_bounds_witness :
    freshSlot.stackTrace.length = STACK_LIMIT ∧
    freshSlot.stackBufPosition < STACK_LIMIT ∧
    ∃ r, writeStackRecord freshSlot "f" "-->" = some r ∧
      r.1.stackBufPosition < STACK_LIMIT ∧
      r.1.stackTrace.length = STACK_LIMIT :=
  ⟨by simp [freshSlot], by decide,
   writeStackRecord_in_bounds freshSlot "f" "-->" (by simp [freshSlot]) (by decide)⟩

theorem getFN_none_of_zero (nm t u : String) (h : (atofParsed t).1 = 0) :
    getFN [nm, t, u] = none := by
  simp [getFN, h]

theorem getFN_none_of_unit (nm t u : String)
    (h : u ≠ "s" ∧ u ≠ "ms" ∧ u ≠ "us" ∧ u ≠ "ns") :
    getFN [nm, t, u] = none := by
  by_cases h0 : (atofParsed t).1 = 0 <;>
    simp [getFN, h0, h.1, h.2.1, h.2.2.1, h.2.2.2]

theorem buildFuncListAux_none (l : String) (lines : List String)
    (hmem : l ∈ lines) (hbad : configFatal l) :
    ∀ acc, buildFuncListAux lines acc = none := by
  induction lines with
  | nil => cases hmem
  | cons a ls ih =>
    intro acc
    rcases List.mem_cons.mp hmem with rfl | hmem'
    · rcases hbad with ⟨hne0, hne3⟩ | ⟨nm, t, u, heq, hbad2⟩
      · simp [buildFuncListAux, hne0, hne3]
      · have hlen : (splitWords l).length = 3 := by rw [heq]; rfl
        have hgf : getFN (splitWords l) = none := by
          rw [heq]
          rcases hbad2 with hz | hu
          · exact getFN_none_of_zero nm t u hz
          · exact getFN_none_of_unit nm t u hu
        simp [buildFuncListAux, hlen, hgf]
    · by_cases h3 : (splitWords a).length = 3
      · cases hgf : getFN (splitWords a) with
        | none => simp [buildFuncListAux, h3, hgf]
        | some fn =>
          simp only [buildFuncListAux, h3, if_pos, hgf]
          exact ih hmem' _
      · by_cases h0 : (splitWords a).length = 0
        · have hstep : buildFuncListAux (a :: ls) acc = buildFuncListAux ls acc := by
            simp [buildFuncListAux, h3, h0]
          rw [hstep]
          exact ih hmem' _
        · simp [buildFuncListAux, h3, h0]

/-- Claim C8: a configuration file containing a malformed line, an unknown
time unit, or a threshold that atof parses as zero makes buildFuncList
return the error, and main then prints Usage and never starts monitoring. -/
theorem buildFuncList_fatal_on_bad_line (lines : List String) (l : String)
    (hmem : l ∈ lines) (hbad : configFatal l) :
    buildFuncList lines = none ∧ mainStartsMonitoring lines = false := by
  have h := buildFuncListAux_none l lines hmem hbad []
  refine ⟨h, ?_⟩
  simp [mainStartsMonitoring, buildFuncList, h]

theorem buildFuncList_fatal_on_bad_line_witness :
    "only two" ∈ ["only two"] ∧ configFatal "only two" ∧
    (buildFuncList ["only two"] = none ∧
     mainStartsMonitoring ["only two"] = false) :=
  ⟨by simp, Or.inl (by decide),
   buildFuncList_fatal_on_bad_line ["only two"] "only two" (by simp)
     (Or.inl (by decide))⟩

theorem writeStackRecord_wf (tld : ThrLocData) (done : List Char) (nm sfx : String)
    (hw : wellFormedTrace tld done)
    (hfit : done.length + (stackToken nm sfx).length + 1 ≤ STACK_LIMIT) :
    ∃ tld', writeStackRecord tld nm sfx = some (tld', false) ∧
      wellFormedTrace tld' (done ++ stackToken nm sfx) ∧
      tld'.timeAtLastEntry = tld.timeAtLastEntry := by
  obtain ⟨hpos, htr⟩ := hw
  have htok := stackToken_length nm sfx
  have hov : ¬ (STACK_LIMIT < tld.stackBufPosition + (nm.length + sfx.length + 3)) := by
    rw [hpos]; omega
  have hlencs : (stackToken nm sfx ++ [nulChar]).length = nm.length + sfx.length + 3 := by
    simp only [List.length_append, List.length_singleton, htok]
  have hwbcond : tld.stackBufPosition + (stackToken nm sfx ++ [nulChar]).length
      ≤ STACK_LIMIT := by
    rw [hlencs, hpos]; omega
  have h1 : tld.stackTrace.take tld.stackBufPosition = done := by
    rw [htr, hpos]
    exact take_len_append done _
  have h2 : tld.stackTrace.drop
      (tld.stackBufPosition + (stackToken nm sfx ++ [nulChar]).length) =
      List.replicate (STACK_LIMIT - (done.length + (stackToken nm sfx).length) - 1)
        nulChar := by
    rw [htr, hpos, hlencs]
    rw [drop_len_append]
    rw [show nm.length + sfx.length + 3 = (nm.length + sfx.length + 2) + 1 from rfl]
    rw [List.drop_succ_cons, drop_repl]
    congr 1
    omega
  rw [writeStackRecord, if_neg hov, writeBytes, if_pos hwbcond]
  refine ⟨_, rfl, ⟨?_, ?_⟩, rfl⟩
  · show tld.stackBufPosition + (nm.length + sfx.length + 3) - 1 =
      (done ++ stackToken nm sfx).length
    rw [hpos, List.length_append, htok]
    omega
  · show tld.stackTrace.take tld.stackBufPosition ++
        (stackToken nm sfx ++ [nulChar]) ++
        tld.stackTrace.drop
          (tld.stackBufPosition + (stackToken nm sfx ++ [nulChar]).length) =
      (done ++ stackToken nm sfx) ++ nulChar ::
        List.replicate (STACK_LIMIT - (done ++ stackToken nm sfx).length - 1) nulChar
    rw [h1, h2]
    simp only [List.append_assoc, List.singleton_append, List.length_append, htok]

theorem runNested_wf (events : List NestedEvent) :
    ∀ (tld : ThrLocData) (done : List Char),
      0 < tld.timeAtLastEntry →
      wellFormedTrace tld done →
      done.length + ((events.map eventToken).flatten).length + 1 ≤ STACK_LIMIT →
      ∃ tld', runNested tld events = some tld' ∧
        wellFormedTrace tld' (done ++ (events.map eventToken).flatten) ∧
        tld'.timeAtLastEntry = tld.timeAtLastEntry := by
  induction events with
  | nil =>
    intro tld done hts hw hfit
    exact ⟨tld, rfl, by simpa using hw, rfl⟩
  | cons e es ih =>
    intro tld done hts hw hfit
    have hjoin : ((e :: es).map eventToken).flatten =
        eventToken e ++ (es.map eventToken).flatten := by
      simp
    have hfit1 : done.length + (eventToken e).length + 1 ≤ STACK_LIMIT := by
      rw [hjoin] at hfit
      simp only [List.length_append] at hfit
      omega
    cases e with
    | enter n =>
      obtain ⟨t1, hw1, hwf1, hts1⟩ :=
        writeStackRecord_wf tld done n "-->" hw (by simpa [eventToken] using hfit1)
      have happ : applyNested tld (NestedEvent.enter n) = some t1 := by
        simp [applyNested, stackTraceBefore, hts, hw1]
      have hts1' : 0 < t1.timeAtLastEntry := by rw [hts1]; exact hts
      have hfit2 : (done ++ eventToken (NestedEvent.enter n)).length +
          ((es.map eventToken).flatten).length + 1 ≤ STACK_LIMIT := by
        rw [hjoin] at hfit
        simp only [List.length_append] at hfit ⊢
        omega
      obtain ⟨t2, hrun, hwf2, hts2⟩ :=
        ih t1 (done ++ eventToken (NestedEvent.enter n)) hts1'
          (by simpa [eventToken] using hwf1) hfit2
      refine ⟨t2, ?_, ?_, by rw [hts2, hts1]⟩
      · show (match applyNested tld (NestedEvent.enter n) with
          | none => none
          | some t => runNested t es) = some t2
        rw [happ]
        exact hrun
      · rw [hjoin, ← List.append_assoc]
        exact hwf2
    | exit n =>
      obtain ⟨t1, hw1, hwf1, hts1⟩ :=
        writeStackRecord_wf tld done n "<--" hw (by simpa [eventToken] using hfit1)
      have happ : applyNested tld (NestedEvent.exit n) = some t1 := by
        simp [applyNested, stackTraceAfter, hts, hw1]
      have hts1' : 0 < t1.timeAtLastEntry := by rw [hts1]; exact hts
      have hfit2 : (done ++ eventToken (NestedEvent.exit n)).length +
          ((es.map eventToken).flatten).length + 1 ≤ STACK_LIMIT := by
        rw [hjoin] at hfit
        simp only [List.length_append] at hfit ⊢
        omega
      obtain ⟨t2, hrun, hwf2, hts2⟩ :=
        ih t1 (done ++ eventToken (NestedEvent.exit n)) hts1'
          (by simpa [eventToken] using hwf1) hfit2
      refine ⟨t2, ?_, ?_, by rw [hts2, hts1]⟩
      · show (match applyNested tld (NestedEvent.exit n) with
          | none => none
          | some t => runNested t es) = some t2
        rw [happ]
        exact hrun
      · rw [hjoin, ← List.append_assoc]
        exact hwf2

theorem takeUntilNull_append (xs ys : List Char) (h : nulChar ∉ xs) :
    takeUntilNull (xs ++ nulChar :: ys) = xs := by
  induction xs with
  | nil => simp [takeUntilNull]
  | cons c cs ih =>
    have hc : ¬ (c = nulChar) := fun h1 => h (h1 ▸ List.mem_cons_self c cs)
    have hcs : nulChar ∉ cs := fun hm => h (List.mem_cons_of_mem c hm)
    simp [takeUntilNull, hc, ih hcs]

theorem nul_not_mem_token (e : NestedEvent)
    (h : nulChar ∉ (nestedName e).data) : nulChar ∉ eventToken e := by
  cases e with
  | enter n =>
    simp only [eventToken, stackToken, nestedName] at h ⊢
    intro hm
    rcases List.mem_cons.mp hm with hq | hm2
    · exact absurd hq (by decide)
    · rcases List.mem_append.mp hm2 with hm3 | hq2
      · rcases List.mem_append.mp hm3 with hn | hs
        · exact h hn
        · exact absurd hs (by decide)
      · exact absurd hq2 (by decide)
  | exit n =>
    simp only [eventToken, stackToken, nestedName] at h ⊢
    intro hm
    rcases List.mem_cons.mp hm with hq | hm2
    · exact absurd hq (by decide)
    · rcases List.mem_append.mp hm2 with hm3 | hq2
      · rcases List.mem_append.mp hm3 with hn | hs
        · exact h hn
        · exact absurd hs (by decide)
      · exact absurd hq2 (by decide)

theorem nul_not_mem_flatten (events : List NestedEvent)
    (h : ∀ e ∈ events, nulChar ∉ (nestedName e).data) :
    nulChar ∉ (events.map eventToken).flatten := by
  intro hm
  rw [List.mem_flatten] at hm
  obtain ⟨l, hl, hml⟩ := hm
  rw [List.mem_map] at hl
  obtain ⟨e, he, rfl⟩ := hl
  exact nul_not_mem_token e (h e he) hml

theorem string_eq_of_data {a b : String} (h : a.data = b.data) : a = b := by
  cases a
  cases b
  exact congrArg String.mk h

theorem stackToken_inj (n1 s1 n2 s2 : String) (hs : s1.length = s2.length)
    (h : stackToken n1 s1 = stackToken n2 s2) : n1 = n2 ∧ s1 = s2 := by
  simp only [stackToken, List.cons.injEq, true_and] at h
  have h' : n1.data ++ (s1.data ++ [qChar]) = n2.data ++ (s2.data ++ [qChar]) := by
    simpa [List.append_assoc] using h
  have hlen : (s1.data ++ [qChar]).length = (s2.data ++ [qChar]).length := by
    simp only [List.length_append, List.length_singleton, data_length, hs]
  obtain ⟨h1, h2⟩ := List.append_inj' h' hlen
  refine ⟨string_eq_of_data h1, ?_⟩
  have hsl : s1.data.length = s2.data.length := by
    simp only [data_length, hs]
  obtain ⟨h3, _⟩ := List.append_inj h2 hsl
  exact string_eq_of_data h3

/-- Claim C7 (amended): provided every appended token fits in the remaining
capacity of the fixed trace buffer (otherwise the overflow rule of the
recorder drops it), a nested call B entered and exited while the monitored
call is outstanding contributes its enter token before its exit token in
the trace read by the report sink; and when B is never called during the
invocation, the trace is exactly the tokens of the other nested events and
contains no B token. -/
theorem runNested_trace_tokens (now : Nat) (events es1 es2 es3 : List NestedEvent)
    (B : String) (hnow : 0 < now)
    (hfit : ((events.map eventToken).flatten).length + 1 ≤ STACK_LIMIT)
    (hnul : ∀ e ∈ events, nulChar ∉ (nestedName e).data) :
    ∃ tld', runNested (callBefore now freshSlot) events = some tld' ∧
      (events = es1 ++ NestedEvent.enter B :: (es2 ++ NestedEvent.exit B :: es3) →
        ∃ u v w, traceOut tld' =
          u ++ stackToken B "-->" ++ (v ++ stackToken B "<--" ++ w)) ∧
      ((∀ e ∈ events, nestedName e ≠ B) →
        traceOut tld' = (events.map eventToken).flatten ∧
        stackToken B "-->" ∉ events.map eventToken ∧
        stackToken B "<--" ∉ events.map eventToken) := by
  have hw0 : wellFormedTrace (callBefore now freshSlot) [] := by
    constructor
    · rfl
    · show List.replicate STACK_LIMIT nulChar =
        [] ++ nulChar :: List.replicate (STACK_LIMIT - List.length [] - 1) nulChar
      rw [show STACK_LIMIT = 8191 + 1 from rfl, List.replicate_succ]
      rfl
  obtain ⟨tld', hr, hwf, _⟩ :=
    runNested_wf events (callBefore now freshSlot) []
      (by simpa [callBefore] using hnow) hw0 (by simpa using hfit)
  have htrace : traceOut tld' = (events.map eventToken).flatten := by
    obtain ⟨_, htr⟩ := hwf
    rw [traceOut, htr]
    simp only [List.nil_append]
    exact takeUntilNull_append _ _ (nul_not_mem_flatten events hnul)
  refine ⟨tld', hr, ?_, ?_⟩
  · intro hdec
    refine ⟨(es1.map eventToken).flatten, (es2.map eventToken).flatten,
      (es3.map eventToken).flatten, ?_⟩
    rw [htrace, hdec]
    simp [eventToken, List.append_assoc]
  · intro hB
    refine ⟨htrace, ?_, ?_⟩
    · intro hmem
      rw [List.mem_map] at hmem
      obtain ⟨e, he, heq⟩ := hmem
      cases e with
      | enter n =>
        have hinj := stackToken_inj n "-->" B "-->" (by decide)
          (by simpa [eventToken] using heq)
        exact hB _ he hinj.1
      | exit n =>
        have hinj := stackToken_inj n "<--" B "-->" (by decide)
          (by simpa [eventToken] using heq)
        exact absurd hinj.2 (by decide)
    · intro hmem
      rw [List.mem_map] at hmem
      obtain ⟨e, he, heq⟩ := hmem
      cases e with
      | enter n =>
        have hinj := stackToken_inj n "-->" B "<--" (by decide)
          (by simpa [eventToken] using heq)
        exact absurd hinj.2 (by decide)
      | exit n =>
        have hinj := stackToken_inj n "<--" B "<--" (by decide)
          (by simpa [eventToken] using heq)
        exact hB _ he hinj.1

theorem runNested_trace_tokens_witness :
    (0 : Nat) < 5 ∧
    ((wEvents.map eventToken).flatten).length + 1 ≤ STACK_LIMIT ∧
    (∀ e ∈ wEvents, nulChar ∉ (nestedName e).data) ∧
    (∃ tld', runNested (callBefore 5 freshSlot) wEvents = some tld' ∧
      (wEvents = [NestedEvent.enter "x"] ++ NestedEvent.enter "b" ::
          ([] ++ NestedEvent.exit "b" :: [NestedEvent.exit "x"]) →
        ∃ u v w, traceOut tld' =
          u ++ stackToken "b" "-->" ++ (v ++ stackToken "b" "<--" ++ w)) ∧
      ((∀ e ∈ wEvents, nestedName e ≠ "b") →
        traceOut tld' = (wEvents.map eventToken).flatten ∧
        stackToken "b" "-->" ∉ wEvents.map eventToken ∧
        stackToken "b" "<--" ∉ wEvents.map eventToken)) :=
  ⟨by decide, by decide, by decide,
   runNested_trace_tokens 5 wEvents [NestedEvent.enter "x"] []
     [NestedEvent.exit "x"] "b" (by decide) (by decide) (by decide)⟩

/-- Claim C7 counterexample: a nested routine with an 8187-character name
is entered and exited while the monitored call is outstanding, yet no enter
token is appended: the record needs 8193 bytes, one more than STACK_LIMIT,
so writeStackRecord drops it and the trace stays empty.  The unconditional
claim that a token is appended at entry therefore fails. -/
theorem runNested_overflow_drops_token_cex :
    (runNested (callBefore 5 freshSlot)
        [NestedEvent.enter hugeName, NestedEvent.exit hugeName]).map traceOut =
      some [] ∧
    stackToken hugeName "-->" ≠ [] := by
  have hlen : hugeName.length = 8187 := by
    have hdata : hugeName.data = List.replicate 8187 'a' := rfl
    rw [← data_length, hdata, List.length_replicate]
  have hts : 0 < (callBefore 5 freshSlot).timeAtLastEntry := by decide
  have hdropEnter : writeStackRecord (callBefore 5 freshSlot) hugeName "-->" =
      some (callBefore 5 freshSlot, true) := by
    apply writeStackRecord_drop
    rw [hlen]
    decide
  have hdropExit : writeStackRecord (callBefore 5 freshSlot) hugeName "<--" =
      some (callBefore 5 freshSlot, true) := by
    apply writeStackRecord_drop
    rw [hlen]
    decide
  have h2 : applyNested (callBefore 5 freshSlot) (NestedEvent.enter hugeName) =
      some (callBefore 5 freshSlot) := by
    simp [applyNested, stackTraceBefore, hts, hdropEnter]
  have h3 : applyNested (callBefore 5 freshSlot) (NestedEvent.exit hugeName) =
      some (callBefore 5 freshSlot) := by
    simp [applyNested, stackTraceAfter, hts, hdropExit]
  have h4 : traceOut (callBefore 5 freshSlot) = [] := by
    show takeUntilNull (List.replicate STACK_LIMIT nulChar) = []
    rw [show STACK_LIMIT = 8191 + 1 from rfl, List.replicate_succ]
    simp [takeUntilNull]
  constructor
  · simp [runNested, h2, h3, h4]
  · simp [stackToken]
